import Mathlib

/-!
Verification of the InkyPi APOD plugin (`src/plugins/apod/apod.py`).

The plugin is shallowly embedded: images become a structure holding a width,
a height and a pixel function; PIL's geometric operations (`thumbnail`,
`crop`, `paste`, `Image.new`) are translated from their documented
semantics as used by the plugin; the plugin's own functions
(`resize_to_fit`, `fit_with_background`, `average_border_color`, the caption
and date-parameter logic, and the `generate_image` pipeline) are translated
line by line from the Python source.  Floating-point quantities appearing in
PIL's `thumbnail` size computation and in `np.mean` are modelled by exact
rational / natural arithmetic.  The LANCZOS resampling kernel and font
rasterisation are abstracted as parameters: no claim depends on the numeric
values they produce, only on dimensions, placement and data flow.
-/

namespace Apod

/-- An RGB pixel: a triple of channel values. -/
abbrev Pix := ℕ × ℕ × ℕ

/-- A raster image: dimensions plus a pixel lookup function.  Pixels are
modelled in RGB; `convert("RGB")` is the identity on this representation. -/
structure Img where
  width : ℕ
  height : ℕ
  pixel : ℕ → ℕ → Pix

/-- Well-formedness of a decoded raster image: positive dimensions and
8-bit channel values. -/
def Img.Wf (img : Img) : Prop :=
  0 < img.width ∧ 0 < img.height ∧
    ∀ x y, (img.pixel x y).1 ≤ 255 ∧ (img.pixel x y).2.1 ≤ 255 ∧
      (img.pixel x y).2.2 ≤ 255

/-- The all-background image created by `Image.new("RGB", (w, h), bg)`. -/
def newImg (w h : ℕ) (bg : Pix) : Img :=
  { width := w, height := h, pixel := fun _ _ => bg }

/-- Pillow's `round_aspect(number, key)` from `Image.thumbnail`:
`max(min(math.floor(number), math.ceil(number), key=key), 1)`.  Python's
two-argument `min` with a key returns the first argument on ties, so the
floor is kept unless the ceiling has a strictly smaller key. -/
def roundAspect (t : ℚ) (key : ℤ → ℚ) : ℤ :=
  max (if key ⌈t⌉ < key ⌊t⌋ then ⌈t⌉ else ⌊t⌋) 1

/-- The size computed by Pillow's `Image.thumbnail((W, H))` for a source of
size `w × h`, with the float arithmetic carried out exactly in `ℚ`.
`none` models the `ZeroDivisionError` Python raises when the source height
is zero (computing `aspect`) or the target height is zero (computing
`x / y`); in every other case `thumbnail` computes a size. -/
def thumbnailSize (w h W H : ℕ) : Option (ℕ × ℕ) :=
  if w ≤ W ∧ h ≤ H then some (w, h)
  else if h = 0 then none
  else if H = 0 then none
  else if (w : ℚ) / (h : ℚ) ≤ (W : ℚ) / (H : ℚ) then
    some ((roundAspect ((H : ℚ) * ((w : ℚ) / (h : ℚ)))
      (fun n => |(w : ℚ) / (h : ℚ) - (n : ℚ) / (H : ℚ)|)).toNat, H)
  else
    some (W, (roundAspect ((W : ℚ) / ((w : ℚ) / (h : ℚ)))
      (fun n => if n = 0 then 0
        else |(w : ℚ) / (h : ℚ) - (W : ℚ) / (n : ℚ)|)).toNat)

/-- An abstract resampling kernel standing in for LANCZOS: given the source
image, the target dimensions and a target coordinate, produce a pixel.  The
plugin's claims depend only on the geometry of resizing, never on the
resampled values. -/
structure Resampler where
  sample : Img → ℕ → ℕ → ℕ → ℕ → Pix

/-- In-place `img.thumbnail((W, H), LANCZOS)` as a function on image
values: the dimensions come from `thumbnailSize`; when they equal the
current size Pillow skips the resize and the data is unchanged. -/
def thumbnailPure (rs : Resampler) (img : Img) (W H : ℕ) : Option Img :=
  (thumbnailSize img.width img.height W H).map fun wh =>
    if wh.1 = img.width ∧ wh.2 = img.height then img
    else { width := wh.1, height := wh.2, pixel := rs.sample img wh.1 wh.2 }

/-- `Apod.resize_to_fit`: copy the image, then `thumbnail` the copy.  On
image values the copy is the identity; the aliasing behaviour is studied
separately on the store model below. -/
def resize_to_fit (rs : Resampler) (img : Img) (W H : ℕ) : Option Img :=
  thumbnailPure rs img W H

/-- `canvas.paste(src, (x, y))`: inside the pasted rectangle read from
`src`, elsewhere keep the canvas; the canvas dimensions are unchanged and
the region is clipped to them. -/
def pasteImg (canvas src : Img) (x y : ℤ) : Img :=
  { width := canvas.width, height := canvas.height,
    pixel := fun i j =>
      if x ≤ (i : ℤ) ∧ (i : ℤ) < x + src.width ∧
          y ≤ (j : ℤ) ∧ (j : ℤ) < y + src.height
      then src.pixel ((i : ℤ) - x).toNat ((j : ℤ) - y).toNat
      else canvas.pixel i j }

/-- `Apod.fit_with_background`: resize to fit, then paste onto a fresh
background canvas at `((W - rw) // 2, (H - rh) // 2)` (Python floor
division, hence `Int.fdiv`). -/
def fit_with_background (rs : Resampler) (img : Img) (W H : ℕ) (bg : Pix) :
    Option Img :=
  (resize_to_fit rs img W H).map fun r =>
    pasteImg (newImg W H bg) r (((W : ℤ) - r.width).fdiv 2)
      (((H : ℤ) - r.height).fdiv 2)

/-! ### Geometry of `roundAspect` and `thumbnailSize` -/

theorem one_le_roundAspect (t : ℚ) (k : ℤ → ℚ) : 1 ≤ roundAspect t k :=
  le_max_right _ _

theorem roundAspect_le (t : ℚ) (k : ℤ → ℚ) (n : ℤ) (hn : 1 ≤ n)
    (h : t ≤ (n : ℚ)) : roundAspect t k ≤ n := by
  unfold roundAspect
  have hceil : ⌈t⌉ ≤ n := Int.ceil_le.mpr h
  have hfloor : ⌊t⌋ ≤ n := le_trans (Int.floor_le_ceil t) hceil
  exact max_le (by split <;> assumption) hn

theorem roundAspect_near (t : ℚ) (k : ℤ → ℚ) (ht : 0 ≤ t) :
    |(roundAspect t k : ℚ) - t| ≤ 1 := by
  have hfl : t - 1 < (⌊t⌋ : ℚ) := Int.sub_one_lt_floor t
  have hcl : (⌈t⌉ : ℚ) < t + 1 := Int.ceil_lt_add_one t
  have key : ∀ c : ℤ, ⌊t⌋ ≤ c → c ≤ ⌈t⌉ → |((max c 1 : ℤ) : ℚ) - t| ≤ 1 := by
    intro c hc1 hc2
    have hlow : (⌊t⌋ : ℚ) ≤ ((max c 1 : ℤ) : ℚ) := by
      exact_mod_cast le_trans hc1 (le_max_left c 1)
    have hup : ((max c 1 : ℤ) : ℚ) ≤ max ((⌈t⌉ : ℤ) : ℚ) 1 := by
      rw [show ((1 : ℚ)) = ((1 : ℤ) : ℚ) by norm_num, ← Int.cast_max]
      exact_mod_cast max_le_max hc2 (le_refl (1 : ℤ))
    have hup2 : max ((⌈t⌉ : ℤ) : ℚ) 1 ≤ t + 1 :=
      max_le hcl.le (by linarith)
    rw [abs_le]
    constructor <;> linarith [le_trans hup hup2]
  unfold roundAspect
  split
  · exact key ⌈t⌉ (Int.floor_le_ceil t) (le_refl _)
  · exact key ⌊t⌋ (le_refl _) (Int.floor_le_ceil t)

/-- Packaged facts about the size `thumbnail` produces, for a source with
positive dimensions: it fits the target box, never exceeds the source
dimensions, leaves an already-fitting image alone, and changes the aspect
ratio by at most one pixel of rounding in one of the two axes. -/
theorem thumbnailSize_spec (w h W H : ℕ) (hw : 0 < w) (hh : 0 < h)
    (p : ℕ × ℕ) (hp : thumbnailSize w h W H = some p) :
    p.1 ≤ W ∧ p.2 ≤ H ∧ p.1 ≤ w ∧ p.2 ≤ h ∧
    (w ≤ W ∧ h ≤ H → p = (w, h)) ∧
    |(p.1 : ℤ) * h - (p.2 : ℤ) * w| ≤ ((max w h : ℕ) : ℤ) := by
  have hhq : (0 : ℚ) < (h : ℚ) := by exact_mod_cast hh
  have hwq : (0 : ℚ) < (w : ℚ) := by exact_mod_cast hw
  have hh0 : (h : ℚ) ≠ 0 := ne_of_gt hhq
  have hw0 : (w : ℚ) ≠ 0 := ne_of_gt hwq
  unfold thumbnailSize at hp
  split_ifs at hp with h1 h2 h3 h4
  · -- already fits: unchanged
    rw [Option.some_inj] at hp
    subst hp
    refine ⟨h1.1, h1.2, le_refl _, le_refl _, fun _ => rfl, ?_⟩
    rw [show ((w : ℤ) * h - (h : ℤ) * w) = 0 by ring]
    simp
  · -- wide target: height pinned to H
    have hH : 0 < H := Nat.pos_of_ne_zero h3
    have hHq : (0 : ℚ) < (H : ℚ) := by exact_mod_cast hH
    have hwh : (w : ℚ) * H ≤ W * h := (div_le_div_iff hhq hHq).mp h4
    have hHh : H < h := by
      by_contra hcon
      push_neg at hcon
      rcases Nat.lt_or_ge W w with hWw | hWw
      · have hc1 : (h : ℚ) ≤ H := by exact_mod_cast hcon
        have hc2 : (W : ℚ) * h ≤ W * H := by nlinarith
        have hc3 : (w : ℚ) * H ≤ W * H := le_trans hwh hc2
        have hc4 : (w : ℚ) ≤ W := le_of_mul_le_mul_right hc3 hHq
        have : w ≤ W := by exact_mod_cast hc4
        omega
      · exact h1 ⟨hWw, by omega⟩
    set t : ℚ := (H : ℚ) * ((w : ℚ) / (h : ℚ)) with hts
    have hth : t * h = (H : ℚ) * w := by
      rw [hts]
      field_simp
    have ht0 : (0 : ℚ) < t := by rw [hts]; positivity
    have htW : t ≤ (W : ℚ) := by
      rw [hts, show (H : ℚ) * ((w : ℚ) / (h : ℚ)) = (H : ℚ) * w / h by ring,
        div_le_iff hhq]
      linarith [mul_comm (H : ℚ) (w : ℚ)]
    have htw : t ≤ (w : ℚ) := by
      have hHle : (H : ℚ) ≤ h := by exact_mod_cast hHh.le
      rw [hts, show (H : ℚ) * ((w : ℚ) / (h : ℚ)) = (H : ℚ) * w / h by ring,
        div_le_iff hhq]
      nlinarith
    have hW1 : 0 < W := by
      have hWq : (0 : ℚ) < W := lt_of_lt_of_le ht0 htW
      exact_mod_cast hWq
    set x' := roundAspect t
      (fun n => |(w : ℚ) / (h : ℚ) - (n : ℚ) / (H : ℚ)|) with hxs
    have hx1 : 1 ≤ x' := one_le_roundAspect _ _
    have hxW : x' ≤ (W : ℤ) := roundAspect_le _ _ _ (by exact_mod_cast hW1)
      (by exact_mod_cast htW)
    have hxw : x' ≤ (w : ℤ) := roundAspect_le _ _ _ (by exact_mod_cast hw)
      (by exact_mod_cast htw)
    have hnear : |(x' : ℚ) - t| ≤ 1 := roundAspect_near _ _ ht0.le
    have hxnn : (0 : ℤ) ≤ x' := by omega
    have hcast : ((x'.toNat : ℕ) : ℚ) = ((x' : ℤ) : ℚ) := by
      exact_mod_cast Int.toNat_of_nonneg hxnn
    rw [Option.some_inj] at hp
    subst hp
    refine ⟨by omega, le_refl _, by omega, hHh.le, fun hfit => absurd hfit h1, ?_⟩
    have hq : |((x'.toNat : ℕ) : ℚ) * h - (H : ℚ) * w| ≤ (h : ℚ) := by
      rw [hcast, show ((x' : ℤ) : ℚ) * h - (H : ℚ) * w
          = (((x' : ℤ) : ℚ) - t) * h by rw [sub_mul, hth],
        abs_mul, abs_of_pos hhq]
      calc |((x' : ℤ) : ℚ) - t| * h ≤ 1 * h :=
            mul_le_mul_of_nonneg_right hnear hhq.le
        _ = h := one_mul _
    have hz : |((x'.toNat : ℕ) : ℤ) * h - (H : ℤ) * w| ≤ (h : ℤ) := by
      have h2q : ((|((x'.toNat : ℕ) : ℤ) * h - (H : ℤ) * w| : ℤ) : ℚ) ≤
          ((h : ℤ) : ℚ) := by
        push_cast
        exact hq
      exact_mod_cast h2q
    exact le_trans hz (by exact_mod_cast le_max_right w h)
  · -- tall target: width pinned to W
    have hH : 0 < H := Nat.pos_of_ne_zero h3
    have hHq : (0 : ℚ) < (H : ℚ) := by exact_mod_cast hH
    push_neg at h4
    have hwh : (W : ℚ) * h < w * H := (div_lt_div_iff hHq hhq).mp h4
    have hWw : W < w := by
      by_contra hcon
      push_neg at hcon
      rcases Nat.lt_or_ge H h with hHh | hHh
      · have hc1 : (w : ℚ) ≤ W := by exact_mod_cast hcon
        have hc5 : (H : ℚ) ≤ h := by exact_mod_cast hHh.le
        have hc2 : (w : ℚ) * H ≤ W * H := by nlinarith
        have hc3 : (W : ℚ) * H ≤ W * h := by
          have hW0 : (0 : ℚ) ≤ W := by positivity
          nlinarith
        linarith
      · exact h1 ⟨hcon, by omega⟩
    set t : ℚ := (W : ℚ) / ((w : ℚ) / (h : ℚ)) with hts
    have htrw : t = (W : ℚ) * h / w := by
      rw [hts]
      field_simp
    have hth : t * w = (W : ℚ) * h := by
      rw [htrw]
      field_simp
    have ht0 : (0 : ℚ) ≤ t := by rw [htrw]; positivity
    have htH : t ≤ (H : ℚ) := by
      rw [htrw, div_le_iff hwq]
      nlinarith
    have hthh : t ≤ (h : ℚ) := by
      have hWle : (W : ℚ) ≤ w := by exact_mod_cast hWw.le
      rw [htrw, div_le_iff hwq]
      nlinarith
    set y' := roundAspect t (fun n => if n = 0 then 0
      else |(w : ℚ) / (h : ℚ) - (W : ℚ) / (n : ℚ)|) with hys
    have hy1 : 1 ≤ y' := one_le_roundAspect _ _
    have hyH : y' ≤ (H : ℤ) := roundAspect_le _ _ _ (by exact_mod_cast hH)
      (by exact_mod_cast htH)
    have hyh : y' ≤ (h : ℤ) := roundAspect_le _ _ _ (by exact_mod_cast hh)
      (by exact_mod_cast hthh)
    have hnear : |(y' : ℚ) - t| ≤ 1 := roundAspect_near _ _ ht0
    have hynn : (0 : ℤ) ≤ y' := by omega
    have hcast : ((y'.toNat : ℕ) : ℚ) = ((y' : ℤ) : ℚ) := by
      exact_mod_cast Int.toNat_of_nonneg hynn
    rw [Option.some_inj] at hp
    subst hp
    refine ⟨le_refl _, by omega, hWw.le, by omega, fun hfit => absurd hfit h1, ?_⟩
    have hq : |(W : ℚ) * h - ((y'.toNat : ℕ) : ℚ) * w| ≤ (w : ℚ) := by
      rw [hcast, show (W : ℚ) * h - ((y' : ℤ) : ℚ) * w
          = (t - ((y' : ℤ) : ℚ)) * w by rw [sub_mul, hth],
        abs_mul, abs_of_pos hwq, abs_sub_comm]
      calc |((y' : ℤ) : ℚ) - t| * w ≤ 1 * w :=
            mul_le_mul_of_nonneg_right hnear hwq.le
        _ = w := one_mul _
    have hz : |(W : ℤ) * h - ((y'.toNat : ℕ) : ℤ) * w| ≤ (w : ℤ) := by
      have h2q : ((|(W : ℤ) * h - ((y'.toNat : ℕ) : ℤ) * w| : ℤ) : ℚ) ≤
          ((w : ℤ) : ℚ) := by
        push_cast
        exact hq
      exact_mod_cast h2q
    exact le_trans hz (by exact_mod_cast le_max_left w h)


/-- If both the source and target heights are positive, `thumbnail` cannot
raise: it computes a size. -/
theorem thumbnailSize_isSome (w h W H : ℕ) (hh : 0 < h) (hH : 0 < H) :
    ∃ p, thumbnailSize w h W H = some p := by
  unfold thumbnailSize
  split_ifs with h1 h2 h3 h4
  · exact ⟨(w, h), rfl⟩
  · omega
  · omega
  · exact ⟨_, rfl⟩
  · exact ⟨_, rfl⟩

/-- `resize_to_fit` returns an image whose dimensions are the ones chosen
by `thumbnailSize`. -/
theorem resize_dims (rs : Resampler) (img : Img) (W H : ℕ) (p : ℕ × ℕ)
    (hts : thumbnailSize img.width img.height W H = some p) :
    ∃ r, resize_to_fit rs img W H = some r ∧
      r.width = p.1 ∧ r.height = p.2 := by
  by_cases hc : p.1 = img.width ∧ p.2 = img.height
  · refine ⟨img, ?_, hc.1.symm, hc.2.symm⟩
    simp only [resize_to_fit, thumbnailPure, hts, Option.map_some', if_pos hc]
  · refine ⟨{ width := p.1, height := p.2, pixel := rs.sample img p.1 p.2 },
      ?_, rfl, rfl⟩
    simp only [resize_to_fit, thumbnailPure, hts, Option.map_some', if_neg hc]

/-- C2: for every source image (with the positive dimensions of a decoded
raster) and every target size `(W, H)`, whenever `resize_to_fit` returns an
image (it raises `ZeroDivisionError` only for a zero target height), the
result has `width ≤ W` and `height ≤ H`, preserves the source aspect ratio
within one pixel of rounding (the cross-multiplication error is at most one
pixel scaled by the opposite source dimension), never enlarges the image,
and an image already fitting inside the box keeps its dimensions. -/
theorem resize_to_fit_fits_box (rs : Resampler) (img : Img) (W H : ℕ)
    (hw : 0 < img.width) (hh : 0 < img.height) (out : Img)
    (hout : resize_to_fit rs img W H = some out) :
    out.width ≤ W ∧ out.height ≤ H ∧
    out.width ≤ img.width ∧ out.height ≤ img.height ∧
    (img.width ≤ W ∧ img.height ≤ H →
      out.width = img.width ∧ out.height = img.height) ∧
    |(out.width : ℤ) * img.height - (out.height : ℤ) * img.width| ≤
      ((max img.width img.height : ℕ) : ℤ) := by
  rcases hts : thumbnailSize img.width img.height W H with _ | p
  · rw [resize_to_fit, thumbnailPure, hts] at hout
    exact Option.noConfusion hout
  · obtain ⟨le1, le2, le3, le4, hfit, hasp⟩ :=
      thumbnailSize_spec img.width img.height W H hw hh p hts
    obtain ⟨r, hr, hrw, hrh⟩ := resize_dims rs img W H p hts
    rw [hr, Option.some_inj] at hout
    subst hout
    refine ⟨by omega, by omega, by omega, by omega, ?_, ?_⟩
    · intro hbox
      have := hfit hbox
      rw [this] at hrw hrh
      exact ⟨by omega, by omega⟩
    · rw [hrw, hrh]
      exact hasp

/-- A trivial resampling kernel, used to instantiate witnesses. -/
def constRs : Resampler := ⟨fun _ _ _ _ _ => (0, 0, 0)⟩

/-- A concrete 2-by-2 test image. -/
def imgA : Img := { width := 2, height := 2, pixel := fun _ _ => (7, 7, 7) }

theorem resize_to_fit_fits_box_witness :
    imgA.width ≤ 4 ∧ imgA.height ≤ 4 ∧
    imgA.width ≤ imgA.width ∧ imgA.height ≤ imgA.height ∧
    (imgA.width ≤ 4 ∧ imgA.height ≤ 4 →
      imgA.width = imgA.width ∧ imgA.height = imgA.height) ∧
    |(imgA.width : ℤ) * imgA.height - (imgA.height : ℤ) * imgA.width| ≤
      ((max imgA.width imgA.height : ℕ) : ℤ) :=
  resize_to_fit_fits_box constRs imgA 4 4 (by decide) (by decide) imgA rfl

/-- C1: for every source image (positive dimensions) and target size
`(W, H)` with `W > 0` and `H > 0`, `fit_with_background` returns an image
of exactly size `(W, H)`, equal to the resized source pasted at offsets
`x = (W - resized_width) / 2` and `y = (H - resized_height) / 2` (floor
division) over the background colour. -/
theorem fit_with_background_exact_size (rs : Resampler) (img : Img)
    (W H : ℕ) (bg : Pix) (hw : 0 < img.width) (hh : 0 < img.height)
    (hW : 0 < W) (hH : 0 < H) :
    ∃ r out, resize_to_fit rs img W H = some r ∧
      fit_with_background rs img W H bg = some out ∧
      out.width = W ∧ out.height = H ∧
      ∀ i j, i < W → j < H →
        out.pixel i j =
          if (W - r.width) / 2 ≤ i ∧ i < (W - r.width) / 2 + r.width ∧
              (H - r.height) / 2 ≤ j ∧ j < (H - r.height) / 2 + r.height
          then r.pixel (i - (W - r.width) / 2) (j - (H - r.height) / 2)
          else bg := by
  obtain ⟨p, hts⟩ := thumbnailSize_isSome img.width img.height W H hh hH
  obtain ⟨le1, le2, le3, le4, hfit, hasp⟩ :=
    thumbnailSize_spec img.width img.height W H hw hh p hts
  obtain ⟨r, hr, hrw, hrh⟩ := resize_dims rs img W H p hts
  have hrW : r.width ≤ W := by omega
  have hrH : r.height ≤ H := by omega
  refine ⟨r, pasteImg (newImg W H bg) r (((W : ℤ) - r.width).fdiv 2)
    (((H : ℤ) - r.height).fdiv 2), hr, ?_, rfl, rfl, ?_⟩
  · rw [fit_with_background, hr, Option.map_some']
  · intro i j hi hj
    have hxz : ((W : ℤ) - r.width).fdiv 2 = (((W - r.width) / 2 : ℕ) : ℤ) := by
      rw [show ((W : ℤ) - r.width) = (((W - r.width : ℕ) : ℕ) : ℤ) by omega]
      rw [Int.fdiv_eq_ediv _ (by omega)]
      exact (Int.ofNat_div _ _).symm
    have hyz : ((H : ℤ) - r.height).fdiv 2 =
        (((H - r.height) / 2 : ℕ) : ℤ) := by
      rw [show ((H : ℤ) - r.height) = (((H - r.height : ℕ) : ℕ) : ℤ) by omega]
      rw [Int.fdiv_eq_ediv _ (by omega)]
      exact (Int.ofNat_div _ _).symm
    show (if _ then _ else _) = _
    rw [hxz, hyz]
    by_cases hc : (W - r.width) / 2 ≤ i ∧ i < (W - r.width) / 2 + r.width ∧
        (H - r.height) / 2 ≤ j ∧ j < (H - r.height) / 2 + r.height
    · rw [if_pos hc, if_pos (by omega)]
      congr 1 <;> omega
    · rw [if_neg hc, if_neg (by omega)]
      rfl

theorem fit_with_background_exact_size_witness :
    ∃ r out, resize_to_fit constRs imgA 3 3 = some r ∧
      fit_with_background constRs imgA 3 3 (1, 2, 3) = some out ∧
      out.width = 3 ∧ out.height = 3 ∧
      ∀ i j, i < 3 → j < 3 →
        out.pixel i j =
          if (3 - r.width) / 2 ≤ i ∧ i < (3 - r.width) / 2 + r.width ∧
              (3 - r.height) / 2 ≤ j ∧ j < (3 - r.height) / 2 + r.height
          then r.pixel (i - (3 - r.width) / 2) (j - (3 - r.height) / 2)
          else (1, 2, 3) :=
  fit_with_background_exact_size constRs imgA 3 3 (1, 2, 3)
    (by decide) (by decide) (by decide) (by decide)


/-! ### A store model for PIL image objects

PIL images are mutable Python objects.  To study aliasing (`img.copy()`
versus in-place `thumbnail` and `paste`), a store is a list of image
values and a handle is an index into it; `copy` allocates, `thumbnail`
and `paste` overwrite the entry they are called on. -/

/-- The empty image value used for an unallocated handle (never reached
under the validity hypotheses of the theorems). -/
def emptyImg : Img := { width := 0, height := 0, pixel := fun _ _ => (0, 0, 0) }

/-- A store of PIL image objects. -/
abbrev Store := List Img

/-- `img.copy()`: allocate a fresh object holding the same data; returns
the new store and the fresh handle. -/
def copyOp (s : Store) (i : ℕ) : Store × ℕ :=
  (s ++ [s.getD i emptyImg], s.length)

/-- `Apod.resize_to_fit` on the store: copy the argument, then run
`thumbnail` in place on the copy (`img = img.copy(); img.thumbnail(...)`),
returning the handle of the copy.  The copy holds the same data as the
original, so the thumbnail input is `s.getD i emptyImg`. -/
def resize_to_fit_op (rs : Resampler) (s : Store) (i : ℕ) (W H : ℕ) :
    Option (Store × ℕ) :=
  (thumbnailPure rs (s.getD i emptyImg) W H).map fun t =>
    ((s ++ [s.getD i emptyImg]).set s.length t, s.length)

/-- `Apod.fit_with_background` on the store: resize (which allocates the
copy), allocate the canvas with `Image.new`, then `canvas.paste(img, ...)`
mutates the canvas entry in place; the canvas handle is returned. -/
def fit_with_background_op (rs : Resampler) (s : Store) (i : ℕ)
    (W H : ℕ) (bg : Pix) : Option (Store × ℕ) :=
  (resize_to_fit_op rs s i W H).map fun rj =>
    ((rj.1 ++ [newImg W H bg]).set rj.1.length
      (pasteImg (newImg W H bg) (rj.1.getD rj.2 emptyImg)
        (((W : ℤ) - (rj.1.getD rj.2 emptyImg).width).fdiv 2)
        (((H : ℤ) - (rj.1.getD rj.2 emptyImg).height).fdiv 2)),
     rj.1.length)

/-- C9: `resize_to_fit` (and hence `fit_with_background`) never mutates the
caller's image: the operations work on a fresh copy (and a fresh canvas),
so after the call the caller's handle still holds exactly the same image
value — same dimensions and pixel data — and the returned handle is a
different object. -/
theorem resize_and_fit_preserve_caller (rs : Resampler) (s : Store) (i : ℕ)
    (W H : ℕ) (bg : Pix) (hi : i < s.length) :
    (∀ s' j, resize_to_fit_op rs s i W H = some (s', j) →
      s'[i]? = s[i]? ∧ j ≠ i) ∧
    (∀ s' j, fit_with_background_op rs s i W H bg = some (s', j) →
      s'[i]? = s[i]? ∧ j ≠ i) := by
  have hbase : ∀ t, ((s ++ [s.getD i emptyImg]).set s.length t)[i]? = s[i]? := by
    intro t
    rw [List.getElem?_set_ne (by omega)]
    exact List.getElem?_append_left hi
  constructor
  · intro s' j hop
    unfold resize_to_fit_op at hop
    rcases hth : thumbnailPure rs (s.getD i emptyImg) W H with _ | t
    · rw [hth] at hop
      exact Option.noConfusion hop
    · rw [hth, Option.map_some', Option.some_inj] at hop
      injection hop with hop1 hop2
      subst hop1
      subst hop2
      exact ⟨hbase t, by omega⟩
  · intro s' j hop
    unfold fit_with_background_op resize_to_fit_op at hop
    rcases hth : thumbnailPure rs (s.getD i emptyImg) W H with _ | t
    · rw [hth] at hop
      exact Option.noConfusion hop
    · rw [hth, Option.map_some', Option.map_some', Option.some_inj] at hop
      dsimp only at hop
      injection hop with hop1 hop2
      subst hop1
      subst hop2
      have hClen : ((s ++ [s.getD i emptyImg]).set s.length t).length
          = s.length + 1 := by
        rw [List.length_set, List.length_append]
        rfl
      have hset : i < ((s ++ [s.getD i emptyImg]).set s.length t).length := by
        omega
      refine ⟨?_, by omega⟩
      rw [List.getElem?_set_ne (by omega), List.getElem?_append_left hset]
      exact hbase t

theorem resize_and_fit_preserve_caller_witness :
    ([imgA, imgA] : Store)[0]? = ([imgA] : Store)[0]? ∧ (1 : ℕ) ≠ 0 ∧
    ([imgA, imgA,
        pasteImg (newImg 4 4 (0, 0, 0)) imgA 1 1] : Store)[0]?
      = ([imgA] : Store)[0]? ∧ (2 : ℕ) ≠ 0 :=
  have h := resize_and_fit_preserve_caller constRs [imgA] 0 4 4 (0, 0, 0)
    (by decide)
  ⟨(h.1 [imgA, imgA] 1 rfl).1, (h.1 [imgA, imgA] 1 rfl).2,
   (h.2 [imgA, imgA, pasteImg (newImg 4 4 (0, 0, 0)) imgA 1 1] 2 rfl).1,
   (h.2 [imgA, imgA, pasteImg (newImg 4 4 (0, 0, 0)) imgA 1 1] 2 rfl).2⟩


/-! ### `average_border_color`

`img.crop(box)` is modelled with PIL's documented out-of-range behaviour:
a crop box may extend beyond the image, and the pixels outside are black
`(0, 0, 0)`.  `np.mean` followed by `int(...)` is an exact componentwise
mean truncated toward zero, which for the natural-number sums here is
natural division. -/

/-- Reading a pixel at a (possibly out-of-range) coordinate: PIL fills
crop areas outside the image with zero pixels. -/
def pixAt (img : Img) (x y : ℤ) : Pix :=
  if 0 ≤ x ∧ x < img.width ∧ 0 ≤ y ∧ y < img.height
  then img.pixel x.toNat y.toNat else (0, 0, 0)

/-- `img.crop((l, t, r, b)).getdata()`: the pixels of the box in row-major
order. -/
def cropData (img : Img) (box : ℤ × ℤ × ℤ × ℤ) : List Pix :=
  (List.range (box.2.2.2 - box.2.1).toNat).flatMap fun j : ℕ =>
    (List.range (box.2.2.1 - box.1).toNat).map fun i : ℕ =>
      pixAt img (box.1 + (i : ℤ)) (box.2.1 + (j : ℤ))

/-- The crop boxes `average_border_color` requests, in source order: for
each `y < border_px` the top row `(0, y, w, y+1)` and the bottom row
`(0, h-y-1, w, h-y)`, then for each `x < border_px` the left column
`(x, 0, x+1, h)` and the right column `(w-x-1, 0, w-x, h)`. -/
def cropBoxes (w h bp : ℕ) : List (ℤ × ℤ × ℤ × ℤ) :=
  ((List.range bp).flatMap fun y =>
    [((0 : ℤ), (y : ℤ), (w : ℤ), (y : ℤ) + 1),
     ((0 : ℤ), (h : ℤ) - y - 1, (w : ℤ), (h : ℤ) - y)]) ++
  ((List.range bp).flatMap fun x =>
    [((x : ℤ), (0 : ℤ), (x : ℤ) + 1, (h : ℤ)),
     ((w : ℤ) - x - 1, (0 : ℤ), (w : ℤ) - x, (h : ℤ))])

/-- The `pixels` list accumulated by `average_border_color`. -/
def borderPixels (img : Img) (bp : ℕ) : List Pix :=
  (cropBoxes img.width img.height bp).flatMap (cropData img)

/-- Componentwise sum of a pixel list. -/
def sumPix (ps : List Pix) : ℕ × ℕ × ℕ :=
  ps.foldr (fun q acc => (q.1 + acc.1, q.2.1 + acc.2.1, q.2.2 + acc.2.2))
    (0, 0, 0)

/-- `Apod.average_border_color`: sample the border crops and return
`tuple(map(int, np.mean(pixels, axis=0)))` — the componentwise mean
truncated toward zero. -/
def average_border_color (img : Img) (bp : ℕ := 10) : Pix :=
  ((sumPix (borderPixels img bp)).1 / (borderPixels img bp).length,
   (sumPix (borderPixels img bp)).2.1 / (borderPixels img bp).length,
   (sumPix (borderPixels img bp)).2.2 / (borderPixels img bp).length)

/-- A crop box lies fully inside a `w × h` image. -/
def boxInRange (w h : ℕ) (box : ℤ × ℤ × ℤ × ℤ) : Bool :=
  decide (0 ≤ box.1) && decide (0 ≤ box.2.1) &&
    decide (box.2.2.1 ≤ (w : ℤ)) && decide (box.2.2.2 ≤ (h : ℤ))

/-- Modelled from the spec: "collect every pixel in the top `border_px`
rows, bottom `border_px` rows, left `border_px` columns, and right
`border_px` columns (corners counted multiple times)", reading pixels
directly from the image with no padding.  Used to compare the crop-based
code against the spec's description of the sampled multiset. -/
def specBorderList (img : Img) (bp : ℕ) : List Pix :=
  ((List.range bp).flatMap fun y =>
    ((List.range img.width).map fun x => img.pixel x y) ++
    ((List.range img.width).map fun x => img.pixel x (img.height - 1 - y))) ++
  ((List.range bp).flatMap fun x =>
    ((List.range img.height).map fun y => img.pixel x y) ++
    ((List.range img.height).map fun y => img.pixel (img.width - 1 - x) y))

theorem listFlatMapCongr {α β : Type} (l : List α) (f g : α → List β)
    (h : ∀ a ∈ l, f a = g a) : l.flatMap f = l.flatMap g := by
  induction l with
  | nil => rfl
  | cons a l ih =>
    rw [List.flatMap_cons, List.flatMap_cons, h a (by simp),
      ih fun b hb => h b (by simp [hb])]

theorem listFlatMapSingleton {α β : Type} (l : List α) (g : α → β) :
    (l.flatMap fun a => [g a]) = l.map g := by
  induction l with
  | nil => rfl
  | cons a l ih =>
    rw [List.flatMap_cons, ih]
    rfl

/-- A one-row crop `(0, t, w, t+1)` inside the image reads row `y`. -/
theorem cropData_row (img : Img) (t b : ℤ) (y : ℕ) (hty : t = (y : ℤ))
    (hb : b = t + 1) (hyh : y < img.height) :
    cropData img (0, t, img.width, b) =
      (List.range img.width).map fun x => img.pixel x y := by
  subst hty hb
  unfold cropData
  dsimp only
  rw [show ((y : ℤ) + 1 - y).toNat = 1 by omega,
    show ((img.width : ℤ) - 0).toNat = img.width by omega,
    show List.range 1 = [0] from rfl, List.flatMap_cons]
  simp only [List.flatMap_nil, List.append_nil]
  refine List.map_congr_left fun x hx => ?_
  rw [List.mem_range] at hx
  unfold pixAt
  rw [if_pos ⟨by omega, by omega, by omega, by omega⟩]
  congr 1 <;> omega

/-- A one-column crop `(l, 0, l+1, h)` inside the image reads column `x`. -/
theorem cropData_col (img : Img) (l r : ℤ) (x : ℕ) (hlx : l = (x : ℤ))
    (hr : r = l + 1) (hxw : x < img.width) :
    cropData img (l, 0, r, img.height) =
      (List.range img.height).map fun y => img.pixel x y := by
  subst hlx hr
  unfold cropData
  dsimp only
  rw [show ((img.height : ℤ) - 0).toNat = img.height by omega,
    show ((x : ℤ) + 1 - x).toNat = 1 by omega,
    show List.range 1 = [0] from rfl]
  have h1 : ∀ j ∈ List.range img.height,
      ([0].map fun i : ℕ => pixAt img ((x : ℤ) + i) (0 + j))
        = [img.pixel x j] := by
    intro j hj
    rw [List.mem_range] at hj
    simp only [List.map_cons, List.map_nil]
    congr 1
    unfold pixAt
    rw [if_pos ⟨by omega, by omega, by omega, by omega⟩]
    congr 1 <;> omega
  rw [listFlatMapCongr _ _ _ h1, listFlatMapSingleton]


theorem listFlatMapFlatMap {α β γ : Type} (l : List α) (f : α → List β)
    (g : β → List γ) :
    (l.flatMap f).flatMap g = l.flatMap fun a => (f a).flatMap g := by
  induction l with
  | nil => rfl
  | cons a l ih =>
    rw [List.flatMap_cons, List.flatMap_append, ih, List.flatMap_cons]

/-- When the border thickness does not exceed either dimension, every crop
is in range and the crop-based pixel list is exactly the spec's direct
border sample. -/
theorem borderPixels_eq_spec (img : Img) (bp : ℕ)
    (hbp : bp ≤ min img.width img.height) :
    borderPixels img bp = specBorderList img bp := by
  unfold borderPixels cropBoxes specBorderList
  rw [List.flatMap_append, listFlatMapFlatMap, listFlatMapFlatMap]
  congr 1
  · refine listFlatMapCongr _ _ _ fun y hy => ?_
    rw [List.mem_range] at hy
    rw [List.flatMap_cons, List.flatMap_cons, List.flatMap_nil,
      List.append_nil]
    rw [cropData_row img ((y : ℕ) : ℤ) (((y : ℕ) : ℤ) + 1) y rfl rfl
      (by omega)]
    rw [cropData_row img ((img.height : ℤ) - y - 1) ((img.height : ℤ) - y)
      (img.height - 1 - y) (by omega) (by omega) (by omega)]
  · refine listFlatMapCongr _ _ _ fun x hx => ?_
    rw [List.mem_range] at hx
    rw [List.flatMap_cons, List.flatMap_cons, List.flatMap_nil,
      List.append_nil]
    rw [cropData_col img ((x : ℕ) : ℤ) (((x : ℕ) : ℤ) + 1) x rfl rfl
      (by omega)]
    rw [cropData_col img ((img.width : ℤ) - x - 1) ((img.width : ℤ) - x)
      (img.width - 1 - x) (by omega) (by omega) (by omega)]

theorem sumPix_le (ps : List Pix)
    (hb : ∀ q ∈ ps, q.1 ≤ 255 ∧ q.2.1 ≤ 255 ∧ q.2.2 ≤ 255) :
    (sumPix ps).1 ≤ 255 * ps.length ∧
    (sumPix ps).2.1 ≤ 255 * ps.length ∧
    (sumPix ps).2.2 ≤ 255 * ps.length := by
  induction ps with
  | nil => simp [sumPix]
  | cons q ps ih =>
    have hq := hb q (List.mem_cons_self q ps)
    have ih' := ih fun r hr => hb r (List.mem_cons_of_mem q hr)
    simp only [sumPix, List.foldr_cons, List.length_cons] at ih' ⊢
    exact ⟨by linarith [ih'.1, hq.1], by linarith [ih'.2.1, hq.2.1],
      by linarith [ih'.2.2, hq.2.2]⟩

theorem specBorderList_mem_bound (img : Img) (bp : ℕ) (hwf : img.Wf)
    (q : Pix) (hq : q ∈ specBorderList img bp) :
    q.1 ≤ 255 ∧ q.2.1 ≤ 255 ∧ q.2.2 ≤ 255 := by
  obtain ⟨hw, hh, hpix⟩ := hwf
  unfold specBorderList at hq
  simp only [List.mem_append, List.mem_flatMap, List.mem_map,
    List.mem_range] at hq
  rcases hq with (⟨y, hy, (⟨x, hx, rfl⟩ | ⟨x, hx, rfl⟩)⟩ |
    ⟨x, hx, (⟨y, hy, rfl⟩ | ⟨y, hy, rfl⟩)⟩) <;> exact hpix _ _

/-- C3: for every well-formed image of size `w × h` and border thickness
`b` with `0 < b ≤ min(w,h)/2`, `average_border_color` returns a triple of
naturals, each channel at most 255 (and at least 0 by the type), equal to
the componentwise mean — truncated toward zero, i.e. natural division —
of all sampled border pixels (top `b` rows, bottom `b` rows, left `b`
columns, right `b` columns, corners counted multiple times). -/
theorem average_border_color_is_truncated_mean (img : Img) (bp : ℕ)
    (hwf : img.Wf) (hbp1 : 0 < bp)
    (hbp2 : bp ≤ min img.width img.height / 2) :
    average_border_color img bp =
      ((sumPix (specBorderList img bp)).1 / (specBorderList img bp).length,
       (sumPix (specBorderList img bp)).2.1 / (specBorderList img bp).length,
       (sumPix (specBorderList img bp)).2.2 /
         (specBorderList img bp).length) ∧
    (average_border_color img bp).1 ≤ 255 ∧
    (average_border_color img bp).2.1 ≤ 255 ∧
    (average_border_color img bp).2.2 ≤ 255 := by
  have hbp : bp ≤ min img.width img.height := by omega
  have heq : borderPixels img bp = specBorderList img bp :=
    borderPixels_eq_spec img bp hbp
  have havg : average_border_color img bp =
      ((sumPix (specBorderList img bp)).1 / (specBorderList img bp).length,
       (sumPix (specBorderList img bp)).2.1 / (specBorderList img bp).length,
       (sumPix (specBorderList img bp)).2.2 /
         (specBorderList img bp).length) := by
    unfold average_border_color
    rw [heq]
  refine ⟨havg, ?_⟩
  rw [havg]
  have hb := sumPix_le (specBorderList img bp)
    (fun q hq => specBorderList_mem_bound img bp hwf q hq)
  have hb1 := hb.1
  have hb2 := hb.2.1
  have hb3 := hb.2.2
  exact ⟨Nat.div_le_of_le_mul (by omega), Nat.div_le_of_le_mul (by omega),
    Nat.div_le_of_le_mul (by omega)⟩

theorem average_border_color_is_truncated_mean_witness :
    average_border_color imgA 1 =
      ((sumPix (specBorderList imgA 1)).1 / (specBorderList imgA 1).length,
       (sumPix (specBorderList imgA 1)).2.1 / (specBorderList imgA 1).length,
       (sumPix (specBorderList imgA 1)).2.2 /
         (specBorderList imgA 1).length) ∧
    (average_border_color imgA 1).1 ≤ 255 ∧
    (average_border_color imgA 1).2.1 ≤ 255 ∧
    (average_border_color imgA 1).2.2 ≤ 255 :=
  average_border_color_is_truncated_mean imgA 1
    ⟨by norm_num [imgA], by norm_num [imgA],
      fun x y => ⟨by norm_num [imgA], by norm_num [imgA], by norm_num [imgA]⟩⟩
    (by decide) (by decide)


/-- C10: `average_border_color` depends only on the border pixels: two
images of the same size with `min(w,h) ≥ 2 * border_px` that agree on the
top, bottom, left and right `border_px`-thick border strips produce the
same RGB triple, whatever their interior pixels are. -/
theorem average_border_color_depends_only_on_border (img1 img2 : Img)
    (bp : ℕ) (hw : img1.width = img2.width)
    (hh : img1.height = img2.height)
    (hsz : 2 * bp ≤ min img1.width img1.height)
    (hagree : ∀ x y, x < img1.width → y < img1.height →
      (x < bp ∨ img1.width - bp ≤ x ∨ y < bp ∨ img1.height - bp ≤ y) →
      img1.pixel x y = img2.pixel x y) :
    average_border_color img1 bp = average_border_color img2 bp := by
  have hbp1 : bp ≤ min img1.width img1.height := by omega
  have hbp2 : bp ≤ min img2.width img2.height := by omega
  have hspec : specBorderList img1 bp = specBorderList img2 bp := by
    unfold specBorderList
    rw [← hw, ← hh]
    congr 1
    · refine listFlatMapCongr _ _ _ fun y hy => ?_
      rw [List.mem_range] at hy
      congr 1
      · exact List.map_congr_left fun x hx =>
          hagree x y (List.mem_range.mp hx) (by omega) (by omega)
      · exact List.map_congr_left fun x hx =>
          hagree x (img1.height - 1 - y) (List.mem_range.mp hx) (by omega)
            (by omega)
    · refine listFlatMapCongr _ _ _ fun x hx => ?_
      rw [List.mem_range] at hx
      congr 1
      · exact List.map_congr_left fun y hy =>
          hagree x y (by omega) (List.mem_range.mp hy) (by omega)
      · exact List.map_congr_left fun y hy =>
          hagree (img1.width - 1 - x) y (by omega) (List.mem_range.mp hy)
            (by omega)
  unfold average_border_color
  rw [borderPixels_eq_spec img1 bp hbp1, borderPixels_eq_spec img2 bp hbp2,
    hspec]

/-- A 3-by-3 image differing from `imgC` only at the interior pixel. -/
def imgB : Img :=
  { width := 3, height := 3,
    pixel := fun x y => if x = 1 ∧ y = 1 then (9, 9, 9) else (7, 7, 7) }

/-- A constant 3-by-3 image. -/
def imgC : Img := { width := 3, height := 3, pixel := fun _ _ => (7, 7, 7) }

theorem average_border_color_depends_only_on_border_witness :
    average_border_color imgB 1 = average_border_color imgC 1 :=
  average_border_color_depends_only_on_border imgB imgC 1 rfl rfl
    (by decide)
    (fun x y hx hy hreg => by
      have hne : ¬(x = 1 ∧ y = 1) := by
        simp only [imgB, imgC] at hx hy hreg
        omega
      simp [imgB, imgC, hne])

/-- The all-white 1-by-1 test image. -/
def white1 : Img :=
  { width := 1, height := 1, pixel := fun _ _ => (255, 255, 255) }

/-- C4 counterexample: a 1-by-1 image is smaller than `2 * border_px = 20`
in both dimensions, yet `average_border_color` performs no clamping: it
requests crops lying outside the image (so `cropBoxes` is not all in
range), and instead of sampling the whole image it averages in the black
padding PIL supplies for the out-of-range area — the all-white image
yields `(25, 25, 25)`, not `(255, 255, 255)`. -/
theorem average_border_color_no_clamp_cex :
    1 < 2 * 10 ∧
    (cropBoxes 1 1 10).all (boxInRange 1 1) = false ∧
    average_border_color white1 10 = (25, 25, 25) := by
  refine ⟨by decide, by decide, ?_⟩
  decide

/-- C4 amended: `average_border_color` never clamps the border thickness;
the crops it requests all stay inside the image exactly when
`border_px ≤ min(w,h)` (for `min(w,h) < 2 * border_px` they merely
overlap), and when `min(w,h) < border_px` crops outside the image are
requested, which PIL fills with black pixels instead of raising. -/
theorem cropBoxes_in_range_iff (w h bp : ℕ) (hbp : 0 < bp) :
    (cropBoxes w h bp).all (boxInRange w h) = true ↔ bp ≤ min w h := by
  rw [List.all_eq_true]
  constructor
  · intro hall
    have hmem1 : ((0 : ℤ), ((bp - 1 : ℕ) : ℤ), (w : ℤ),
        ((bp - 1 : ℕ) : ℤ) + 1) ∈ cropBoxes w h bp := by
      unfold cropBoxes
      refine List.mem_append_left _ (List.mem_flatMap.mpr
        ⟨bp - 1, List.mem_range.mpr (by omega), ?_⟩)
      exact List.mem_cons_self _ _
    have hmem2 : (((bp - 1 : ℕ) : ℤ), (0 : ℤ), ((bp - 1 : ℕ) : ℤ) + 1,
        (h : ℤ)) ∈ cropBoxes w h bp := by
      unfold cropBoxes
      refine List.mem_append_right _ (List.mem_flatMap.mpr
        ⟨bp - 1, List.mem_range.mpr (by omega), ?_⟩)
      exact List.mem_cons_self _ _
    have h1 := hall _ hmem1
    have h2 := hall _ hmem2
    simp only [boxInRange, Bool.and_eq_true, decide_eq_true_eq] at h1 h2
    omega
  · intro hle box hbox
    unfold cropBoxes at hbox
    rw [List.mem_append] at hbox
    rcases hbox with hbox | hbox <;>
      rw [List.mem_flatMap] at hbox <;>
      obtain ⟨y, hy, hbox⟩ := hbox <;>
      rw [List.mem_range] at hy <;>
      simp only [List.mem_cons, List.not_mem_nil, or_false] at hbox <;>
      rcases hbox with rfl | rfl <;>
      simp only [boxInRange, Bool.and_eq_true, decide_eq_true_eq] <;>
      refine ⟨⟨⟨by omega, by omega⟩, by omega⟩, by omega⟩

theorem cropBoxes_in_range_iff_witness :
    (cropBoxes 3 3 2).all (boxInRange 3 3) = true :=
  (cropBoxes_in_range_iff 3 3 2 (by decide)).mpr (by decide)


/-! ### Caption text, date selection and the `generate_image` pipeline -/

/-- The caption derivation of `generate_image` (lines 63-70): Python string
truthiness makes the empty string behave like an absent field. -/
def captionText (title cr : String) : String :=
  if title ≠ "" ∧ cr ≠ "" then title ++ " (© " ++ cr ++ ")"
  else if title ≠ "" then title
  else if cr ≠ "" then "© " ++ cr
  else ""

/-- Python truthiness of an optional string: `None` and `""` are falsy. -/
def truthyOpt (v : Option String) : Bool :=
  match v with
  | none => false
  | some s => !(s == "")

/-- The `date` query parameter built by `generate_image` (lines 39-46):
`randomizeApod` is compared with the exact string `"true"`; otherwise a
truthy `customDate` is passed through unmodified; otherwise the parameter
is omitted. -/
def dateParam (randomize customDate : Option String) (randomDate : String) :
    Option String :=
  if randomize = some "true" then some randomDate
  else if truthyOpt customDate then customDate
  else none

/-- Gregorian leap year, as implemented by Python's `datetime`. -/
def isLeap (y : ℕ) : Bool :=
  y % 4 == 0 && (y % 100 != 0 || y % 400 == 0)

/-- Days in a month of the proleptic Gregorian calendar. -/
def daysInMonth (y m : ℕ) : ℕ :=
  if m = 2 then (if isLeap y then 29 else 28)
  else if m = 4 ∨ m = 6 ∨ m = 9 ∨ m = 11 then 30
  else 31

/-- A calendar date `(year, month, day)` is valid. -/
def validDate (d : ℕ × ℕ × ℕ) : Prop :=
  1 ≤ d.2.1 ∧ d.2.1 ≤ 12 ∧ 1 ≤ d.2.2 ∧ d.2.2 ≤ daysInMonth d.1 d.2.1

/-- The day after a date; `datetime + timedelta(days=n)` is `n` steps of
this successor. -/
def nextDay (d : ℕ × ℕ × ℕ) : ℕ × ℕ × ℕ :=
  if d.2.2 < daysInMonth d.1 d.2.1 then (d.1, d.2.1, d.2.2 + 1)
  else if d.2.1 < 12 then (d.1, d.2.1 + 1, 1)
  else (d.1 + 1, 1, 1)

/-- `start + timedelta(days=n)`. -/
def dateAfter (d : ℕ × ℕ × ℕ) (n : ℕ) : ℕ × ℕ × ℕ :=
  Nat.iterate nextDay n d

/-- `datetime(2015, 1, 1)`, the start of the random-date range. -/
def apodStart : ℕ × ℕ × ℕ := (2015, 1, 1)

/-- Lexicographic order on dates. -/
def dateLe (a b : ℕ × ℕ × ℕ) : Prop :=
  a.1 < b.1 ∨ (a.1 = b.1 ∧
    (a.2.1 < b.2.1 ∨ (a.2.1 = b.2.1 ∧ a.2.2 ≤ b.2.2)))

/-- Strict lexicographic order on dates. -/
def dateLt (a b : ℕ × ℕ × ℕ) : Prop :=
  a.1 < b.1 ∨ (a.1 = b.1 ∧
    (a.2.1 < b.2.1 ∨ (a.2.1 = b.2.1 ∧ a.2.2 < b.2.2)))

/-- The decimal digit character for `n % 10`. -/
def digitChar (n : ℕ) : Char := Char.ofNat (48 + n % 10)

/-- Zero-padded two-digit rendering (exact for `n ≤ 99`), as `%m`/`%d`. -/
def pad2 (n : ℕ) : String := String.mk [digitChar (n / 10), digitChar n]

/-- Zero-padded four-digit rendering (exact for `n ≤ 9999`). -/
def pad4 (n : ℕ) : String :=
  String.mk [digitChar (n / 1000), digitChar (n / 100), digitChar (n / 10),
    digitChar n]

/-- `strftime("%Y-%m-%d")`: years up to 9999 print as four zero-padded
digits (larger years print all their digits), months and days as two. -/
def formatDate (d : ℕ × ℕ × ℕ) : String :=
  (if d.1 ≤ 9999 then pad4 d.1 else Nat.repr d.1) ++ "-" ++ pad2 d.2.1 ++
    "-" ++ pad2 d.2.2

/-- The plugin's settings mapping, with the keys `generate_image` reads. -/
structure Settings where
  randomizeApod : Option String
  customDate : Option String
  autoResize : Option String
  autoBgColor : Option String

/-- The host's device-configuration object: the resolved `NASA_SECRET`
and the display resolution. -/
structure DeviceConfig where
  nasaSecret : Option String
  resolution : ℕ × ℕ

/-- The decoded JSON metadata of the APOD endpoint, plus the HTTP status
of the metadata response. -/
structure ApodResponse where
  status : ℕ
  media_type : Option String
  hdurl : Option String
  url : Option String
  title : Option String
  copyright : Option String

/-- External capabilities of the run: the resampling kernel, the result of
downloading and decoding an image URL, and the font subsystem (text
measurement and rasterisation), all abstracted. -/
structure Host where
  rs : Resampler
  imageAt : String → Option Img
  textSize : String → ℕ × ℕ
  drawText : Img → String → ℤ × ℤ → Img

/-- A network read performed by `generate_image`. -/
inductive Event where
  | metadataFetch : Option String → Event
  | imageFetch : String → Event

/-- Whether an event is the binary image download. -/
def Event.isImageFetch : Event → Bool
  | .imageFetch _ => true
  | _ => false

/-- `data.get("hdurl") or data.get("url")`: the hi-res URL when truthy,
else whatever the plain URL field holds. -/
def pickUrl (hd u : Option String) : Option String :=
  if truthyOpt hd then hd else u

/-- The `date` entry of the query parameters, as `generate_image` builds
it from the settings and the sampled random offset `r`. -/
def apodParamsDate (stg : Settings) (r : ℕ) : Option String :=
  dateParam stg.randomizeApod stg.customDate
    (formatDate (dateAfter apodStart r))

/-- `Apod.generate_image`, step by step from the source: check the API
key; build the params; fetch the metadata (recorded as an event); fail on
non-200 status; fail on a non-image media type; resolve the image URL
(a missing or empty URL makes `requests.get` raise inside the `try`,
giving the load failure without a network read); download and decode the
image (recorded as an event); optionally fit it to the display resolution
over a black or border-averaged background; draw the caption bottom-right
with 15px padding.  `ZeroDivisionError` stands for the uncaught exception
out of `thumbnail` when the display height is zero. -/
def generateImage (host : Host) (stg : Settings) (cfg : DeviceConfig)
    (resp : ApodResponse) (r : ℕ) : Except String Img × List Event :=
  if truthyOpt cfg.nasaSecret = false then
    (Except.error "NASA API Key not configured.", [])
  else if resp.status ≠ 200 then
    (Except.error "Failed to retrieve NASA APOD.",
     [Event.metadataFetch (apodParamsDate stg r)])
  else if resp.media_type ≠ some "image" then
    (Except.error "APOD is not an image today.",
     [Event.metadataFetch (apodParamsDate stg r)])
  else
    match pickUrl resp.hdurl resp.url with
    | none => (Except.error "Failed to load APOD image.",
        [Event.metadataFetch (apodParamsDate stg r)])
    | some u =>
      if u = "" then
        (Except.error "Failed to load APOD image.",
         [Event.metadataFetch (apodParamsDate stg r)])
      else
        match host.imageAt u with
        | none => (Except.error "Failed to load APOD image.",
            [Event.metadataFetch (apodParamsDate stg r), Event.imageFetch u])
        | some img0 =>
          match (if stg.autoResize = some "true" then
              fit_with_background host.rs img0 cfg.resolution.1
                cfg.resolution.2
                (if stg.autoBgColor = some "true"
                 then average_border_color img0 10 else (0, 0, 0))
            else some img0) with
          | none => (Except.error "ZeroDivisionError",
              [Event.metadataFetch (apodParamsDate stg r), Event.imageFetch u])
          | some img1 =>
            (Except.ok (host.drawText img1
                (captionText (resp.title.getD "") (resp.copyright.getD ""))
                ((img1.width : ℤ) - (host.textSize (captionText
                    (resp.title.getD "") (resp.copyright.getD ""))).1 - 15,
                 (img1.height : ℤ) - (host.textSize (captionText
                    (resp.title.getD "") (resp.copyright.getD ""))).2 - 15)),
             [Event.metadataFetch (apodParamsDate stg r), Event.imageFetch u])


theorem daysInMonth_pos (y m : ℕ) : 1 ≤ daysInMonth y m := by
  unfold daysInMonth
  split_ifs <;> omega

theorem validDate_nextDay (d : ℕ × ℕ × ℕ) (h : validDate d) :
    validDate (nextDay d) := by
  obtain ⟨y, m, dd⟩ := d
  have hpos1 : 1 ≤ daysInMonth y (m + 1) := daysInMonth_pos _ _
  have hpos2 : 1 ≤ daysInMonth (y + 1) 1 := daysInMonth_pos _ _
  unfold validDate nextDay at *
  dsimp only at *
  split_ifs with h1 h2 <;> dsimp only <;> omega

theorem dateAfter_succ (d : ℕ × ℕ × ℕ) (n : ℕ) :
    dateAfter d (n + 1) = nextDay (dateAfter d n) :=
  Function.iterate_succ_apply' nextDay n d

theorem dateLt_nextDay (d : ℕ × ℕ × ℕ) (h : validDate d) :
    dateLt d (nextDay d) := by
  obtain ⟨y, m, dd⟩ := d
  unfold validDate dateLt nextDay at *
  dsimp only at *
  split_ifs with h1 h2 <;> dsimp only <;> omega

theorem dateLe_refl (a : ℕ × ℕ × ℕ) : dateLe a a := by
  unfold dateLe
  omega

theorem dateLe_trans (a b c : ℕ × ℕ × ℕ) (h1 : dateLe a b)
    (h2 : dateLe b c) : dateLe a c := by
  unfold dateLe at *
  omega

theorem dateLt_le (a b : ℕ × ℕ × ℕ) (h : dateLt a b) : dateLe a b := by
  unfold dateLt dateLe at *
  omega

theorem dateLe_lt_trans (a b c : ℕ × ℕ × ℕ) (h1 : dateLe a b)
    (h2 : dateLt b c) : dateLt a c := by
  unfold dateLe dateLt at *
  omega

theorem dateLt_ne (a b : ℕ × ℕ × ℕ) (h : dateLt a b) : a ≠ b := by
  intro he
  rw [he] at h
  unfold dateLt at h
  omega

theorem validDate_dateAfter (d : ℕ × ℕ × ℕ) (h : validDate d) (n : ℕ) :
    validDate (dateAfter d n) := by
  induction n with
  | zero => exact h
  | succ n ih =>
    rw [dateAfter_succ]
    exact validDate_nextDay _ ih

theorem dateAfter_le_mono (d : ℕ × ℕ × ℕ) (h : validDate d) (r T : ℕ)
    (hrT : r ≤ T) : dateLe (dateAfter d r) (dateAfter d T) := by
  induction T with
  | zero =>
    rw [show r = 0 by omega]
    exact dateLe_refl _
  | succ T ih =>
    rcases Nat.lt_or_ge r (T + 1) with hr | hr
    · refine dateLe_trans _ _ _ (ih (by omega)) ?_
      rw [dateAfter_succ]
      exact dateLt_le _ _ (dateLt_nextDay _ (validDate_dateAfter d h T))
    · rw [show r = T + 1 by omega]
      exact dateLe_refl _

theorem dateAfter_lt_mono (d : ℕ × ℕ × ℕ) (h : validDate d) (r T : ℕ)
    (hrT : r < T) : dateLt (dateAfter d r) (dateAfter d T) := by
  have hle : dateLe (dateAfter d r) (dateAfter d (T - 1)) :=
    dateAfter_le_mono d h r (T - 1) (by omega)
  have hstep : dateLt (dateAfter d (T - 1)) (dateAfter d T) := by
    rw [show T = (T - 1) + 1 by omega, dateAfter_succ]
    exact dateLt_nextDay _ (validDate_dateAfter d h (T - 1))
  exact dateLe_lt_trans _ _ _ hle hstep

theorem formatDate_length (d : ℕ × ℕ × ℕ) (hy : d.1 ≤ 9999) :
    (formatDate d).length = 10 := by
  unfold formatDate
  rw [if_pos hy]
  have h4 : ∀ n, (pad4 n).length = 4 := fun n => rfl
  have h2a : ∀ n, (pad2 n).length = 2 := fun n => rfl
  rw [String.length_append, String.length_append, String.length_append,
    String.length_append, h4, h2a, h2a]
  rfl

theorem dateLe_year (a b : ℕ × ℕ × ℕ) (h : dateLe a b) : a.1 ≤ b.1 := by
  unfold dateLe at h
  omega

/-- C7: with randomize requested, the produced `date` parameter renders a
valid calendar date between 2015-01-01 and the current date inclusive:
`today` is `dateAfter apodStart T` for the full day count `T`
(`(end - start).days`), the sampled offset `r` ranges over `[0, T]`
(`randint(0, delta_days)` is inclusive at both ends), the chosen date
`dateAfter apodStart r` is valid and lies in the closed range, its
`%Y-%m-%d` rendering is the ten-character `YYYY-MM-DD` shape (years have
four digits through 9999), and distinct offsets give distinct dates, so a
uniformly distributed offset yields a uniformly distributed date. -/
theorem randomDate_valid_in_range (T r : ℕ) (hr : r ≤ T)
    (hy : (dateAfter apodStart T).1 ≤ 9999) :
    validDate (dateAfter apodStart r) ∧
    dateLe apodStart (dateAfter apodStart r) ∧
    dateLe (dateAfter apodStart r) (dateAfter apodStart T) ∧
    (formatDate (dateAfter apodStart r)).length = 10 ∧
    ∀ r', r' < r → dateAfter apodStart r' ≠ dateAfter apodStart r := by
  have hv : validDate apodStart := by
    unfold validDate apodStart daysInMonth
    norm_num
  have h1 : validDate (dateAfter apodStart r) := validDate_dateAfter _ hv r
  have h2 : dateLe apodStart (dateAfter apodStart r) :=
    dateAfter_le_mono _ hv 0 r (by omega)
  have h3 : dateLe (dateAfter apodStart r) (dateAfter apodStart T) :=
    dateAfter_le_mono _ hv r T hr
  refine ⟨h1, h2, h3, formatDate_length _ ?_, fun r' hr' =>
    dateLt_ne _ _ (dateAfter_lt_mono _ hv r' r hr')⟩
  exact le_trans (dateLe_year _ _ h3) hy

set_option maxRecDepth 4000 in
theorem randomDate_valid_in_range_witness :
    validDate (dateAfter apodStart 35) ∧
    dateLe apodStart (dateAfter apodStart 35) ∧
    dateLe (dateAfter apodStart 35) (dateAfter apodStart 40) ∧
    (formatDate (dateAfter apodStart 35)).length = 10 ∧
    ∀ r', r' < 35 → dateAfter apodStart r' ≠ dateAfter apodStart 35 :=
  randomDate_valid_in_range 40 35 (by omega) (by decide)


/-- C5: the caption text is a deterministic function of the title and
copyright strings (Python truthiness: a field is "present" when it is a
non-empty string): both present gives `"{title} (© {copyright})"`,
title only gives the title, copyright only gives `"© {copyright}"`, and
neither gives the empty string. -/
theorem captionText_cases (t c : String) :
    (t ≠ "" → c ≠ "" → captionText t c = t ++ " (© " ++ c ++ ")") ∧
    (t ≠ "" → c = "" → captionText t c = t) ∧
    (t = "" → c ≠ "" → captionText t c = "© " ++ c) ∧
    (t = "" → c = "" → captionText t c = "") := by
  unfold captionText
  refine ⟨fun h1 h2 => ?_, fun h1 h2 => ?_, fun h1 h2 => ?_,
    fun h1 h2 => ?_⟩
  · rw [if_pos ⟨h1, h2⟩]
  · rw [if_neg (by simp [h2]), if_pos h1]
  · rw [if_neg (by simp [h1]), if_neg (by simp [h1]), if_pos h2]
  · rw [if_neg (by simp [h1]), if_neg (by simp [h1]), if_neg (by simp [h2])]

theorem captionText_cases_witness :
    captionText "Galaxy" "NASA" = "Galaxy" ++ " (© " ++ "NASA" ++ ")" ∧
    captionText "Galaxy" "" = "Galaxy" ∧
    captionText "" "NASA" = "© " ++ "NASA" ∧
    captionText "" "" = "" :=
  ⟨(captionText_cases "Galaxy" "NASA").1 (by decide) (by decide),
   (captionText_cases "Galaxy" "").2.1 (by decide) rfl,
   (captionText_cases "" "NASA").2.2.1 rfl (by decide),
   (captionText_cases "" "").2.2.2 rfl rfl⟩

/-- C6 counterexample: the code compares `randomizeApod` with the exact
string `"true"`, not with Python truthiness.  With the truthy value
`"yes"` and no `customDate`, no random date is chosen — the `date`
parameter is omitted — refuting "if the randomize flag is truthy a random
date is chosen"; and with a `customDate` alongside the truthy `"yes"`,
the custom date IS passed through although randomize is present, refuting
"passed … exactly when randomize is absent". -/
theorem dateParam_truthy_cex :
    truthyOpt (some "yes") = true ∧
    dateParam (some "yes") none "2020-05-05" = none ∧
    dateParam (some "yes") (some "2024-01-02") "2020-05-05"
      = some "2024-01-02" := by
  refine ⟨by decide, by decide, by decide⟩

/-- C6 amended: a random date is chosen exactly when `randomizeApod` is
the exact string `"true"`; otherwise a truthy (present and non-empty)
`customDate` is passed through unmodified as the `date` parameter; when
`randomizeApod ≠ "true"` and `customDate` is absent or empty the `date`
parameter is omitted.  (When both are set, `"true"` silently wins.) -/
theorem dateParam_spec (rz cd : Option String) (rd : String) :
    (rz = some "true" → dateParam rz cd rd = some rd) ∧
    (rz ≠ some "true" → truthyOpt cd = true → dateParam rz cd rd = cd) ∧
    (rz ≠ some "true" → truthyOpt cd = false → dateParam rz cd rd = none) := by
  unfold dateParam
  refine ⟨fun h => by rw [if_pos h], fun h1 h2 => ?_, fun h1 h2 => ?_⟩
  · rw [if_neg h1, if_pos h2]
  · rw [if_neg h1, if_neg (by simp [h2])]

theorem dateParam_spec_witness :
    dateParam (some "true") (some "2024-01-02") "2020-05-05"
      = some "2020-05-05" ∧
    dateParam none (some "2024-01-02") "2020-05-05" = some "2024-01-02" ∧
    dateParam none none "2020-05-05" = none :=
  ⟨(dateParam_spec (some "true") (some "2024-01-02") "2020-05-05").1 rfl,
   (dateParam_spec none (some "2024-01-02") "2020-05-05").2.1 (by decide)
     (by decide),
   (dateParam_spec none none "2020-05-05").2.2 (by decide) rfl⟩

/-- C8: whenever the metadata's media kind is not `"image"`,
`generate_image` ends in a raised error and its event trace contains no
image download — the media check (line 56) precedes the image fetch
(line 73), and every earlier failure also aborts before any download. -/
theorem generateImage_non_image_no_fetch (host : Host) (stg : Settings)
    (cfg : DeviceConfig) (resp : ApodResponse) (r : ℕ)
    (hm : resp.media_type ≠ some "image") :
    (∃ msg, (generateImage host stg cfg resp r).1 = Except.error msg) ∧
    (generateImage host stg cfg resp r).2.all
      (fun e => !e.isImageFetch) = true := by
  unfold generateImage
  split_ifs with h1 h2 h3
  · exact ⟨⟨_, rfl⟩, rfl⟩
  · exact ⟨⟨_, rfl⟩, rfl⟩
  · exact ⟨⟨_, rfl⟩, rfl⟩

/-- A concrete host whose downloads decode to `imgA` and whose font
measures every text as a zero box. -/
def hostA : Host :=
  ⟨constRs, fun _ => some imgA, fun _ => (0, 0), fun i _ _ => i⟩

/-- Concrete settings with every key absent. -/
def stgA : Settings := ⟨none, none, none, none⟩

/-- A concrete device configuration with a 4-by-4 display. -/
def cfgA : DeviceConfig := ⟨some "k", (4, 4)⟩

/-- A concrete metadata response whose media kind is `"video"`. -/
def respA : ApodResponse := ⟨200, some "video", none, none, none, none⟩

theorem generateImage_non_image_no_fetch_witness :
    (∃ msg, (generateImage hostA stgA cfgA respA 0).1 = Except.error msg) ∧
    (generateImage hostA stgA cfgA respA 0).2.all
      (fun e => !e.isImageFetch) = true :=
  generateImage_non_image_no_fetch hostA stgA cfgA respA 0 (by decide)

end Apod
